import Mathlib

/-!
Verification of the flat-manager-hooks publish/review pipeline.

This file gives a shallow embedding, in Lean, of the pure core of the
`flat-manager-hooks` tool (src/cmd_publish.rs, src/utils.rs, src/job_utils.rs,
src/storefront.rs, src/review/*.rs) and proves properties of that embedding.

Modelling conventions:
* XML documents are modelled at the parse-tree level (`Element`, mirroring the
  `elementtree` crate's `Element`: tag, attributes, text, tail, children).
  Byte-identity of serialized documents is modelled as equality of parse
  trees, relying on the XML library's deterministic round-trip.
* gzip compression and the ostree object store are content-transparent: the
  "checksum" of an object is identified with its content, which models a
  collision-free content-addressed store.
* Rust `String::to_lowercase` is modelled as ASCII lowercasing (`lowerStr`);
  every key the program manipulates is ASCII.
* Machine integers (i32 pricing values, u16 ELF machine codes) are modelled
  as `Int` / `Nat`; none of the code paths modelled here can overflow.
-/

namespace FlatManagerHooks

/-- Model of Rust `char::to_lowercase` restricted to ASCII. -/
def lowerChar (c : Char) : Char :=
  if 'A' ≤ c ∧ c ≤ 'Z' then Char.ofNat (c.toNat + 32) else c

/-- Model of Rust `str::to_lowercase` (ASCII). -/
def lowerStr (s : String) : String := ⟨s.data.map lowerChar⟩

/-- Model of Rust `str::starts_with`. -/
def strStartsWith (s p : String) : Bool := List.isPrefixOf p.data s.data

/-- Model of Rust `str::split(c)` (keeps empty segments). -/
def splitCharAux (c : Char) : List Char → List Char → List String
  | [], acc => [⟨acc.reverse⟩]
  | x :: xs, acc =>
    if x = c then ⟨acc.reverse⟩ :: splitCharAux c xs []
    else splitCharAux c xs (x :: acc)

/-- Model of Rust `str::split(c)` applied to a string. -/
def splitChar (c : Char) (s : String) : List String := splitCharAux c s.data []

/-! Data model from src/storefront.rs. -/

/-- Verification record of `StorefrontInfo` (src/storefront.rs). -/
structure VerificationInfo where
  verified : Bool
  timestamp : Option String
  method : Option String
  website : Option String
  login_provider : Option String
  login_name : Option String
  login_is_organization : Option Bool
deriving DecidableEq

/-- Pricing record of `StorefrontInfo` (src/storefront.rs). -/
structure PricingInfo where
  recommended_donation : Option Int
  minimum_payment : Option Int
deriving DecidableEq

/-- Storefront facts fetched per app id (src/storefront.rs). -/
structure StorefrontInfo where
  verification : Option VerificationInfo
  pricing : Option PricingInfo
  is_free_software : Option Bool
deriving DecidableEq

/-! Data model from src/job_utils.rs. -/

/-- Build record (src/job_utils.rs `Build`). -/
structure Build where
  build_log_url : Option String
deriving DecidableEq

/-- Per-ref build record (src/job_utils.rs `BuildRef`). -/
structure BuildRef where
  ref_name : String
  build_log_url : Option String
deriving DecidableEq

/-- Build facts from flat-manager (src/job_utils.rs `BuildExtended`). -/
structure BuildExtended where
  build : Build
  build_refs : List BuildRef
deriving DecidableEq

/-! Helpers from src/utils.rs. -/

/-- Suffix components stripped by `app_id_from_ref` (src/utils.rs). -/
def APP_SUFFIXES : List String := ["Sources", "Debug", "Locale"]

/-- Derives the canonical app id from a refstring (src/utils.rs `app_id_from_ref`).
The Rust code panics when the refstring has fewer than two `/`-separated
segments; the model totalizes that case with the empty string. -/
def app_id_from_ref (refstring : String) : String :=
  let ref_id := ((splitChar '/' refstring).get? 1).getD ""
  let id_parts := splitChar '.' ref_id
  if APP_SUFFIXES.contains (id_parts.getLast?.getD "") then
    String.intercalate "." id_parts.dropLast
  else ref_id

/-- Extracts the architecture segment of a refstring (src/utils.rs
`arch_from_ref`), totalized like `app_id_from_ref`. -/
def arch_from_ref (refstring : String) : String :=
  ((splitChar '/' refstring).get? 2).getD ""

/-! XML parse trees, mirroring the `elementtree` crate's `Element`. -/

/-- An XML element: tag name, attributes (in document order), text content,
tail text, and child elements. -/
inductive Element where
  | mk (tag : String) (attrs : List (String × String)) (text : String)
       (tail : String) (children : List Element)

/-- Tag name of an element. -/
def Element.tag : Element → String
  | .mk t _ _ _ _ => t

/-- Attribute list of an element. -/
def Element.attrs : Element → List (String × String)
  | .mk _ a _ _ _ => a

/-- Text content of an element. -/
def Element.text : Element → String
  | .mk _ _ x _ _ => x

/-- Tail text of an element. -/
def Element.tail : Element → String
  | .mk _ _ _ l _ => l

/-- Child elements of an element. -/
def Element.children : Element → List Element
  | .mk _ _ _ _ c => c

/-- Replaces the children of an element. -/
def Element.withChildren : Element → List Element → Element
  | .mk t a x l _, cs => .mk t a x l cs

/-- Replaces the text of an element (elementtree `set_text`). -/
def Element.withText : Element → String → Element
  | .mk t a _ l c, x => .mk t a x l c

mutual

/-- Decidable equality for `Element` (hand-rolled: the nested `List Element`
field defeats automatic deriving). -/
def Element.decEq : (a b : Element) → Decidable (a = b)
  | .mk t1 a1 x1 l1 c1, .mk t2 a2 x2 l2 c2 =>
    match Element.decEqList c1 c2 with
    | isFalse h => isFalse (fun he => by injection he with h1 h2 h3 h4 h5; exact h h5)
    | isTrue h5 =>
      if h : t1 = t2 ∧ a1 = a2 ∧ x1 = x2 ∧ l1 = l2 then
        isTrue (by obtain ⟨rfl, rfl, rfl, rfl⟩ := h; rw [h5])
      else
        isFalse (fun he => by injection he with h1 h2 h3 h4 h5; exact h ⟨h1, h2, h3, h4⟩)

/-- Decidable equality for lists of `Element`. -/
def Element.decEqList : (a b : List Element) → Decidable (a = b)
  | [], [] => isTrue rfl
  | [], _ :: _ => isFalse (fun h => List.noConfusion h)
  | _ :: _, [] => isFalse (fun h => List.noConfusion h)
  | x :: xs, y :: ys =>
    match Element.decEq x y, Element.decEqList xs ys with
    | isTrue h1, isTrue h2 => isTrue (by rw [h1, h2])
    | isFalse h1, _ => isFalse (fun he => by injection he with he1 he2; exact h1 he1)
    | _, isFalse h2 => isFalse (fun he => by injection he with he1 he2; exact h2 he2)

end

instance : DecidableEq Element := Element.decEq

/-- Decidable equality for `Except` results. -/
def exceptDecEq {ε α : Type} [DecidableEq ε] [DecidableEq α] :
    (a b : Except ε α) → Decidable (a = b)
  | .ok a, .ok b =>
    if h : a = b then isTrue (by rw [h])
    else isFalse (fun he => by injection he with h1; exact h h1)
  | .error a, .error b =>
    if h : a = b then isTrue (by rw [h])
    else isFalse (fun he => by injection he with h1; exact h h1)
  | .ok _, .error _ => isFalse (fun he => Except.noConfusion he)
  | .error _, .ok _ => isFalse (fun he => Except.noConfusion he)

instance {ε α : Type} [DecidableEq ε] [DecidableEq α] : DecidableEq (Except ε α) :=
  exceptDecEq

/-- Looks up an attribute by name (elementtree `get_attr`): the value of the
first attribute with the given name. -/
def getAttr (e : Element) (k : String) : Option String :=
  (e.attrs.find? (fun p => p.1 = k)).map (·.2)

/-! The appstream XML rewrite (src/cmd_publish.rs `rewrite_appstream_xml`). -/

/-- Keep/drop decision for one `custom` entry key during the stale-key purge
of `rewrite_appstream_xml` (src/cmd_publish.rs lines 208-231): `flathub::`
keys are dropped, except `flathub::manifest` (always kept) and
`flathub::build::*` keys when no build facts are supplied this run. -/
def keyKeep (build : Option BuildExtended) (key : String) : Bool :=
  if strStartsWith (lowerStr key) "flathub::" then
    if lowerStr key = "flathub::manifest" then true
    else if strStartsWith (lowerStr key) "flathub::build::" && build.isNone then true
    else false
  else true

/-- Keep/drop decision for one `custom` child element during the stale-key
purge: entries without a `key` attribute are kept. -/
def purgeKeep (build : Option BuildExtended) (value : Element) : Bool :=
  match getAttr value "key" with
  | some key => keyKeep build key
  | none => true

/-- Applies the stale-key purge to one child of the component: `custom`
blocks have their stale children removed, everything else is untouched
(the `retain_children` call in `rewrite_appstream_xml`). -/
def purgeElem (build : Option BuildExtended) (c : Element) : Element :=
  if c.tag = "custom" then c.withChildren (c.children.filter (purgeKeep build)) else c

/-- The stale-key purge over the whole component. -/
def purgeComponent (build : Option BuildExtended) (comp : Element) : Element :=
  comp.withChildren (comp.children.map (purgeElem build))

/-- Whether the stale-key purge dropped at least one entry (this is what sets
the `changed` flag inside the `retain_children` closure). -/
def purgeRemovedAny (build : Option BuildExtended) (comp : Element) : Bool :=
  comp.children.any (fun c => c.tag = "custom" && c.children.any (fun v => !(purgeKeep build v)))

/-- Rewrites the first element of a list satisfying `p` with `f`, leaving the
rest alone (models in-place mutation of the element found by `find_mut`). -/
def mapFirstP (p : Element → Bool) (f : Element → Element) : List Element → List Element
  | [] => []
  | c :: rest => if p c then f c :: rest else c :: mapFirstP p f rest

/-- Whether an element is a `custom` block. -/
def isCustomTag (c : Element) : Bool := c.tag = "custom"

/-- Whether an element is a `value` entry carrying the given key (the search
predicate of `find_or_create_element` for `value` entries). -/
def isValueWithKey (k : String) (c : Element) : Bool :=
  c.tag = "value" && getAttr c "key" = some k

/-- A freshly created `custom` block (`append_new_child` + `set_tail`). -/
def newCustom : Element := .mk "custom" [] "" "\n  " []

/-- A freshly created `value` entry (`append_new_child` + `set_tail` +
`set_attr` + `set_text`). -/
def newValue (k v : String) : Element := .mk "value" [("key", k)] v "\n  " []

/-- `find_or_create_element` for a `value` entry inside a `custom` block,
followed by `set_text`: updates the first matching entry's text in place, or
appends a fresh entry. -/
def upsertValue (k v : String) (custom : Element) : Element :=
  if custom.children.any (isValueWithKey k) then
    custom.withChildren (mapFirstP (isValueWithKey k) (fun c => c.withText v) custom.children)
  else
    custom.withChildren (custom.children ++ [newValue k v])

/-- The `set_value` closure of `rewrite_appstream_xml`: for a present value,
upserts it into the first `custom` block of the component (creating the block
if absent) and reports the document changed; does nothing for `None`. -/
def set_value (component : Element) (key : String) : Option String → Element × Bool
  | none => (component, false)
  | some v =>
    if component.children.any isCustomTag then
      (component.withChildren (mapFirstP isCustomTag (upsertValue key v) component.children), true)
    else
      (component.withChildren (component.children ++ [upsertValue key v newCustom]), true)

/-- The ordered sequence of `set_value` calls performed by
`rewrite_appstream_xml` (src/cmd_publish.rs lines 276-351), as (key, optional
value) pairs. -/
def factPairs (info : StorefrontInfo) (refstring : String) (build : Option BuildExtended) :
    List (String × Option String) :=
  (match info.verification with
   | some v =>
     [("flathub::verification::verified", some (if v.verified then "true" else "false")),
      ("flathub::verification::timestamp", v.timestamp),
      ("flathub::verification::method", v.method),
      ("flathub::verification::login_name", v.login_name),
      ("flathub::verification::login_provider", v.login_provider),
      ("flathub::verification::website", v.website),
      ("flathub::verification::login_is_organization",
        some (if v.login_is_organization.isSome then "true" else "false"))]
   | none => []) ++
  (match info.pricing with
   | some p =>
     [("flathub::pricing::recommended_donation", p.recommended_donation.map toString),
      ("flathub::pricing::minimum_payment", p.minimum_payment.map toString)]
   | none => []) ++
  (match build with
   | some b =>
     [("flathub::build::build_log_url", b.build.build_log_url),
      ("flathub::build::build_ref_log_url",
        ((b.build_refs.find? (fun r => r.ref_name = refstring)).bind (fun r => r.build_log_url)))]
   | none => [])

/-- Folds the `set_value` calls over the component, accumulating the
`changed` flag. -/
def applyFacts : List (String × Option String) → Element × Bool → Element × Bool
  | [], acc => acc
  | (k, v) :: rest, (comp, changed) =>
    let r := set_value comp k v
    applyFacts rest (r.1, changed || r.2)

/-- The whole per-component rewrite of `rewrite_appstream_xml`: stale-key
purge followed by the fact upserts, tracking the `changed` flag. -/
def rewriteComponent (info : StorefrontInfo) (refstring : String)
    (build : Option BuildExtended) (comp : Element) : Element × Bool :=
  applyFacts (factPairs info refstring build)
    (purgeComponent build comp, purgeRemovedAny build comp)

/-- Model of src/cmd_publish.rs `rewrite_appstream_xml`, at the parse-tree
level: requires the root to have exactly one child element (the Rust code
counts `root.children_mut()`, i.e. all top-level children regardless of tag),
rewrites that child, and returns the original document unchanged when no edit
was made. -/
def rewrite_appstream_xml (info : StorefrontInfo) (refstring : String)
    (build : Option BuildExtended) (doc : Element) : Except String Element :=
  match doc.children with
  | [component] =>
    let r := rewriteComponent info refstring build component
    if r.2 then .ok (doc.withChildren [r.1]) else .ok doc
  | cs => .error ("Expected exactly 1 <component> tag, found " ++ toString cs.length)

example :
    rewrite_appstream_xml ⟨none, none, none⟩ "app/x/y/z" none
      (.mk "components" [] "" "" [.mk "component" [] "" "" []]) =
    .ok (.mk "components" [] "" "" [.mk "component" [] "" "" []]) := by decide

example :
    rewrite_appstream_xml
      ⟨some ⟨true, none, none, none, none, none, none⟩, none, none⟩ "r" none
      (.mk "components" [] "" "" [.mk "component" [] "" "" []]) =
    .ok (.mk "components" [] "" ""
      [.mk "component" [] "" ""
        [.mk "custom" [] "" "\n  "
          [.mk "value" [("key", "flathub::verification::verified")] "true" "\n  " [],
           .mk "value" [("key", "flathub::verification::login_is_organization")] "false" "\n  " []]]]) := by
  decide

/-! Commit metadata rewriting (src/cmd_publish.rs `rewrite_metadata`,
`list_subsets`). A GLib `VariantDict` is modelled as an association list in
insertion order; `insert` replaces the value of an existing key in place. -/

/-- A value stored in the commit metadata dictionary: a string array
(`xa.subsets`) or an integer (`xa.token-type`). -/
inductive MetaValue where
  | strv (xs : List String)
  | int (n : Int)
deriving DecidableEq

/-- The commit metadata dictionary. -/
abbrev VariantDict : Type := List (String × MetaValue)

/-- `VariantDict` insert: replaces the value of an existing key in place,
otherwise appends. -/
def vdInsert (d : VariantDict) (k : String) (v : MetaValue) : VariantDict :=
  if d.any (fun p => p.1 = k) then
    d.map (fun p => if p.1 = k then (k, v) else p)
  else d ++ [(k, v)]

/-- `VariantDict` remove. -/
def vdRemove (d : VariantDict) (k : String) : VariantDict :=
  d.filter (fun p => !(p.1 = k : Bool))

/-- `VariantDict` lookup (used only in theorem statements). -/
def vdLookup (d : VariantDict) (k : String) : Option MetaValue :=
  (d.find? (fun p => p.1 = k)).map (·.2)

/-- Lists the subsets to add to a commit (src/cmd_publish.rs `list_subsets`). -/
def list_subsets (storefront_info : StorefrontInfo) : List String :=
  let verified := match storefront_info.verification with
    | some v => v.verified
    | none => false
  let floss := match storefront_info.is_free_software with
    | some x => x
    | none => false
  let subsets : List String := []
  let subsets := if verified then subsets ++ ["verified"] else subsets
  let subsets := if floss then subsets ++ ["floss"] else subsets
  let subsets := if verified && floss then subsets ++ ["verified_floss"] else subsets
  subsets

/-- The `is_paid` condition of `rewrite_metadata` (src/cmd_publish.rs lines
371-378): pricing is present and the recommended donation or the minimum
payment is strictly positive. -/
def is_paid (storefront_info : StorefrontInfo) : Bool :=
  match storefront_info.pricing with
  | some pricing =>
    (match pricing.recommended_donation with
     | some x => decide (x > 0)
     | none => false) ||
    (match pricing.minimum_payment with
     | some x => decide (x > 0)
     | none => false)
  | none => false

/-- Edits a commit's metadata according to the storefront info
(src/cmd_publish.rs `rewrite_metadata`). -/
def rewrite_metadata (metadata : VariantDict) (storefront_info : StorefrontInfo) : VariantDict :=
  let subsets := list_subsets storefront_info
  let metadata :=
    if subsets.isEmpty then vdRemove metadata "xa.subsets"
    else vdInsert metadata "xa.subsets" (.strv subsets)
  if is_paid storefront_info then vdInsert metadata "xa.token-type" (.int 1)
  else vdRemove metadata "xa.token-type"

/-! The ostree tree and commit model (src/utils.rs `mtree_lookup` and
src/cmd_publish.rs `rewrite_ref` / `rewrite_appstream_file`). Content
addressing is idealized: the checksum of a file object is identified with
its (decompressed, parsed) content, and the checksum of a commit with the
commit itself. -/

/-- An ostree mutable tree: named regular files (content standing in for the
file checksum) and named subtrees. -/
inductive MTree where
  | node (files : List (String × Element)) (subdirs : List (String × MTree))

/-- Files of a tree node. -/
def MTree.files : MTree → List (String × Element)
  | .node f _ => f

/-- Subtrees of a tree node. -/
def MTree.subdirs : MTree → List (String × MTree)
  | .node _ s => s

mutual

/-- Decidable equality for `MTree` (hand-rolled for the nested list). -/
def MTree.decEq : (a b : MTree) → Decidable (a = b)
  | .node f1 s1, .node f2 s2 =>
    match MTree.decEqSubdirs s1 s2 with
    | isFalse h => isFalse (fun he => by injection he with h1 h2; exact h h2)
    | isTrue hs =>
      if hf : f1 = f2 then isTrue (by rw [hf, hs])
      else isFalse (fun he => by injection he with h1 h2; exact hf h1)

/-- Decidable equality for named subtree lists. -/
def MTree.decEqSubdirs : (a b : List (String × MTree)) → Decidable (a = b)
  | [], [] => isTrue rfl
  | [], _ :: _ => isFalse (fun h => List.noConfusion h)
  | _ :: _, [] => isFalse (fun h => List.noConfusion h)
  | (n1, t1) :: r1, (n2, t2) :: r2 =>
    match MTree.decEq t1 t2, MTree.decEqSubdirs r1 r2 with
    | isTrue h1, isTrue h2 =>
      if hn : n1 = n2 then isTrue (by rw [hn, h1, h2])
      else isFalse (fun he => by
        injection he with he1 he2
        exact hn (congrArg Prod.fst he1))
    | isFalse h1, _ => isFalse (fun he => by
        injection he with he1 he2
        exact h1 (congrArg Prod.snd he1))
    | _, isFalse h2 => isFalse (fun he => by injection he with he1 he2; exact h2 he2)

end

instance : DecidableEq MTree := MTree.decEq

/-- One step of `MutableTree::lookup`: a name resolves to a file checksum, a
subtree, or an error when absent. -/
def MTree.lookup1 (t : MTree) (name : String) : Except String (Option Element × Option MTree) :=
  match t.files.find? (fun p => p.1 = name), t.subdirs.find? (fun p => p.1 = name) with
  | none, none => .error "not found"
  | f, d => .ok (f.map (·.2), d.map (·.2))

/-- Path lookup in a mutable tree (src/utils.rs `mtree_lookup`). -/
def mtree_lookup : MTree → List String → Except String (Option Element × Option MTree)
  | t, [file] => t.lookup1 file
  | t, subdir :: rest =>
    match t.lookup1 subdir with
    | .error e => .error e
    | .ok (_, none) => .error "subdirectory not found"
    | .ok (_, some sub) => mtree_lookup sub rest
  | _, [] => .error "no path given"

/-- Path lookup of a file checksum (src/utils.rs `mtree_lookup_file`). -/
def mtree_lookup_file (mtree : MTree) (path : List String) : Except String Element :=
  match mtree_lookup mtree path with
  | .error e => .error e
  | .ok (some f, _) => .ok f
  | .ok (none, _) => .error "file not found"

/-- `MutableTree::replace_file`: points the named file entry at new content. -/
def MTree.replaceFile (t : MTree) (name : String) (content : Element) : MTree :=
  .node
    (if t.files.any (fun p => p.1 = name) then
       t.files.map (fun p => if p.1 = name then (name, content) else p)
     else t.files ++ [(name, content)])
    t.subdirs

/-- Applies `f` to the subtree reached by `path` and rebuilds the tree around
it; errors mirror `mtree_lookup` followed by `ok_or("file not found")` on the
subtree component (src/cmd_publish.rs lines 179-182). This models the shared
in-place mutation of the subtree handle returned by `mtree_lookup`. -/
def mtree_update : MTree → List String → (MTree → MTree) → Except String MTree
  | t, [last], f =>
    match t.lookup1 last with
    | .error e => .error e
    | .ok (_, none) => .error "file not found"
    | .ok (_, some sub) =>
      .ok (.node t.files (t.subdirs.map (fun p => if p.1 = last then (last, f sub) else p)))
  | t, subdir :: rest, f =>
    match t.lookup1 subdir with
    | .error e => .error e
    | .ok (_, none) => .error "subdirectory not found"
    | .ok (_, some sub) =>
      match mtree_update sub rest f with
      | .error e => .error e
      | .ok sub' =>
        .ok (.node t.files (t.subdirs.map (fun p => if p.1 = subdir then (subdir, sub') else p)))
  | _, [], _ => .error "no path given"

/-- A commit: parent, subject, body, timestamp, metadata dictionary and root
tree. Extended attributes (the signature) are dropped by the rewrite and
therefore not modelled. -/
structure Commit where
  parent : Option String
  subject : String
  body : String
  time : Nat
  metadata : VariantDict
  tree : MTree
deriving DecidableEq

/-- Model of src/cmd_publish.rs `rewrite_appstream_file`: looks up the
appstream catalog file for the app id, rewrites it, and replaces the file in
the tree only when the rewritten document differs from the original. Returns
the (possibly updated) tree and whether a replacement file was written. -/
def rewrite_appstream_file (app_id : String) (storefront_info : StorefrontInfo)
    (build : Option BuildExtended) (refstring : String) (mtree : MTree) :
    Except String (MTree × Bool) :=
  let dirPath := ["files", "share", "app-info", "xmls"]
  let appstream_filename := app_id ++ ".xml.gz"
  match mtree_lookup_file mtree (dirPath ++ [appstream_filename]) with
  | .error _ => .ok (mtree, false)
  | .ok s =>
    match rewrite_appstream_xml storefront_info refstring build s with
    | .error e => .error e
    | .ok new_appstream =>
      if new_appstream = s then .ok (mtree, false)
      else
        match mtree_update mtree dirPath (fun t => t.replaceFile appstream_filename new_appstream) with
        | .error e => .error e
        | .ok t => .ok (t, true)

/-- Observable outcome of `rewrite_ref` for one ref: the resulting tree,
whether a replacement appstream file was written, the commit that was
written, and the argument of `transaction_set_ref` if it was called. -/
structure RefRewrite where
  tree : MTree
  fileReplaced : Bool
  newCommit : Commit
  setRef : Option Commit
deriving DecidableEq

/-- Model of src/cmd_publish.rs `rewrite_ref`: rewrites the appstream file
inside the commit's tree, rewrites the commit metadata, writes a new commit
with the same parent/subject/body/timestamp, and updates the ref pointer only
when the new commit's checksum differs from the original's. -/
def rewrite_ref (storefront_info : StorefrontInfo) (build : Option BuildExtended)
    (refstring : String) (commit : Commit) : Except String RefRewrite :=
  let app_id := app_id_from_ref refstring
  match rewrite_appstream_file app_id storefront_info build refstring commit.tree with
  | .error e => .error e
  | .ok (tree, replaced) =>
    let metadata := rewrite_metadata commit.metadata storefront_info
    let new_commit : Commit :=
      { parent := commit.parent, subject := commit.subject, body := commit.body,
        time := commit.time, metadata := metadata, tree := tree }
    if commit = new_commit then
      .ok { tree := tree, fileReplaced := replaced, newCommit := new_commit, setRef := none }
    else
      .ok { tree := tree, fileReplaced := replaced, newCommit := new_commit,
            setRef := some new_commit }

/-! Diagnostics (src/review/diagnostics.rs). -/

/-- One executable with a mismatched architecture
(src/review/diagnostics.rs `WrongArchExecutable`). -/
structure WrongArchExecutable where
  path : String
  detected_arch : String
  detected_arch_code : Nat
deriving DecidableEq

/-- The diagnostic payloads (src/review/diagnostics.rs `DiagnosticInfo`). -/
inductive DiagnosticInfo where
  | FailedToLoadAppstream (path : String) (error : String)
  | AppstreamValidation (path : String) (stdout : String) (stderr : String)
  | MissingIcon (appstream_path : String)
  | NoLocalIcon (appstream_path : String)
  | MissingBuildLogUrl
  | ScreenshotNotMirrored (appstream_path : String) (urls : List String)
  | MirroredScreenshotNotFound (appstream_path : String) (expected_branch : String)
      (urls : List String)
  | NoScreenshotBranch (expected_branch : String)
  | WrongArchExecutables (expected_arch : String) (executables : List WrongArchExecutable)
deriving DecidableEq

/-- A diagnostic with its severity and optional ref association
(src/review/diagnostics.rs `ValidationDiagnostic`). -/
structure ValidationDiagnostic where
  refstring : Option String
  is_warning : Bool
  info : DiagnosticInfo
deriving DecidableEq

/-! The binary architecture scanner (src/review/review_files.rs). The walk
over the ref's payload is modelled by the depth-first list of regular files,
each carrying the result of the content-type sniff and of the minimal ELF
header parse. -/

/-- ELF machine code for 386 (elf crate `abi::EM_386`). -/
def EM_386 : Nat := 3

/-- ELF machine code for x86-64 (elf crate `abi::EM_X86_64`). -/
def EM_X86_64 : Nat := 62

/-- ELF machine code for AArch64 (elf crate `abi::EM_AARCH64`). -/
def EM_AARCH64 : Nat := 183

/-- Model of the elf crate's `e_machine_to_string` for the codes the scanner
distinguishes; other codes get the crate's fallback rendering. -/
def e_machine_to_string (code : Nat) : String :=
  if code = EM_386 then "EM_386"
  else if code = EM_X86_64 then "EM_X86_64"
  else if code = EM_AARCH64 then "EM_AARCH64"
  else "e_machine(0x" ++ String.mk (Nat.toDigits 16 code) ++ ")"

/-- A regular file as seen by the scanner: its path, whether the content-type
sniff classified it as an executable or shared library, and the ELF machine
code when the minimal header parse succeeded. -/
structure ScannedFile where
  path : String
  is_executable : Bool
  elf_machine : Option Nat
deriving DecidableEq

/-- Accepted machine codes per ref architecture
(src/review/review_files.rs `review_executable_file`). -/
def expected_codes (expected_arch : String) : List Nat :=
  if expected_arch = "x86_64" then [EM_X86_64, EM_386]
  else if expected_arch = "aarch64" then [EM_AARCH64]
  else []

/-- Model of `review_executable_file`: pushes a `WrongArchExecutable` record
when the parsed machine code is not accepted for the ref's architecture; ELF
parse failures are silently skipped. -/
def review_executable_file (refstring : String) (f : ScannedFile)
    (acc : List WrongArchExecutable) : List WrongArchExecutable :=
  match f.elf_machine with
  | none => acc
  | some m =>
    if (expected_codes (arch_from_ref refstring)).any (fun x => x = m) then acc
    else acc ++ [{ path := f.path, detected_arch := e_machine_to_string m,
                   detected_arch_code := m }]

/-- Model of `review_file`: only sniffed executables reach the ELF check. -/
def review_file (refstring : String) (f : ScannedFile)
    (acc : List WrongArchExecutable) : List WrongArchExecutable :=
  if f.is_executable then review_executable_file refstring f acc else acc

/-- Model of `review_files`: accumulates all mismatched executables under the
ref and emits at most one warning-severity diagnostic listing them all. -/
def review_files (files : List ScannedFile) (refstring : String) :
    List ValidationDiagnostic :=
  let wrong := files.foldl (fun acc f => review_file refstring f acc) []
  if wrong.isEmpty then []
  else [{ refstring := some refstring, is_warning := true,
          info := .WrongArchExecutables (arch_from_ref refstring) wrong }]

/-- Closed form of the mismatch list (used in theorem statements and proved
equal to the fold performed by `review_files`). -/
def mismatched_executables (refstring : String) (files : List ScannedFile) :
    List WrongArchExecutable :=
  files.filterMap (fun f =>
    if f.is_executable then
      match f.elf_machine with
      | some m =>
        if (expected_codes (arch_from_ref refstring)).any (fun x => x = m) then none
        else some { path := f.path, detected_arch := e_machine_to_string m,
                    detected_arch_code := m }
      | none => none
    else none)

/-! Appstream component validation (src/review/validation.rs). -/

/-- Model of src/review/validation.rs `check_appstream_component_id`. -/
def check_appstream_component_id (component : Element) (refstring : String) :
    Except String Unit :=
  let ids := component.children.filter (fun c => c.tag = "id")
  if ids.length = 0 then .error "Appstream component does not have an ID"
  else if ids.length ≠ 1 then .error "Appstream component has multiple IDs"
  else
    match component.children.find? (fun c => c.tag = "id") with
    | none => .error "Appstream component does not have an ID"
    | some idEl =>
      let expected_id := app_id_from_ref refstring
      if idEl.text ≠ expected_id ∧ idEl.text ≠ expected_id ++ ".desktop" then
        .error ("Appstream component ID (" ++ idEl.text ++
          ") does not match expected ID (" ++ expected_id ++ ")")
      else .ok ()

/-- Model of src/review/validation.rs `validate_appstream_component`: the id
check plus the icon policy (remote icon without a local icon is a warning,
no icon at all is an error). -/
def validate_appstream_component (component : Element) (refstring : String)
    (appstream_path : String) (has_local_icon : Bool) : List ValidationDiagnostic :=
  let idDiags : List ValidationDiagnostic :=
    match check_appstream_component_id component refstring with
    | .error e =>
      [{ refstring := some refstring, is_warning := false,
         info := .FailedToLoadAppstream appstream_path e }]
    | .ok _ => []
  let iconDiags : List ValidationDiagnostic :=
    if !has_local_icon then
      let has_remote_icon := (component.children.filter (fun c => c.tag = "icon")).any
        (fun icon => getAttr icon "type" = some "remote")
      if has_remote_icon then
        [{ refstring := some refstring, is_warning := true,
           info := .NoLocalIcon appstream_path }]
      else
        [{ refstring := some refstring, is_warning := false,
           info := .MissingIcon appstream_path }]
    else []
  idDiags ++ iconDiags

/-- Whether a diagnostic is one of the two icon diagnostics. -/
def isIconDiag (d : ValidationDiagnostic) : Bool :=
  match d.info with
  | .NoLocalIcon _ => true
  | .MissingIcon _ => true
  | _ => false

/-! The review decision flow (src/review/mod.rs `do_review`, with
src/job_utils.rs `mark_failure`). -/

/-- The check status posted to flat-manager (src/job_utils.rs `CheckStatus`). -/
inductive CheckStatus where
  | ReviewRequired (reason : String)
  | Failed (reason : String)
  | PassedWithWarnings (reason : String)
  | Pending
deriving DecidableEq

/-- The status chosen by src/job_utils.rs `mark_failure`: `Failed`, downgraded
to `PassedWithWarnings` under the observe-only flag. -/
def mark_failure_status (validation_observe_only : Bool) (reason : String) : CheckStatus :=
  if validation_observe_only then .PassedWithWarnings reason
  else .Failed reason

/-- What one review run reports and whether the moderation request was
submitted. -/
structure ReviewOutcome where
  status : CheckStatus
  results : List ValidationDiagnostic
  moderationRan : Bool
deriving DecidableEq

/-- Model of src/review/mod.rs `do_review` after `validate_build` has
produced `validationDiags`: the effects of the two I/O steps are passed in as
values (`moderationDiags` are the diagnostics `review_build` would add while
collecting metadata, `requires_review` is the backend's answer). The reason
strings are the fixed ones from the source. -/
def do_review_outcome (validation_observe_only : Bool)
    (validationDiags moderationDiags : List ValidationDiagnostic)
    (requires_review : Bool) : ReviewOutcome :=
  if validationDiags.any (fun d => !d.is_warning) then
    { status := mark_failure_status validation_observe_only "One or more validations failed.",
      results := validationDiags, moderationRan := false }
  else
    let diags := validationDiags ++ moderationDiags
    if diags.any (fun d => !d.is_warning) then
      { status := mark_failure_status validation_observe_only "One or more validations failed.",
        results := diags, moderationRan := false }
    else
      { status :=
          if requires_review then
            .ReviewRequired "Some of the changes in this build require review by a moderator."
          else .Pending,
        results := diags, moderationRan := true }

/-! Proof-side characterizations of the `rewrite_appstream_xml` pipeline.
`setValCh`/`applyCh` describe the effect of the `set_value` calls on the
component's children, and `valsFold` the effect on the (initially purged)
contents of the first `custom` block. -/

/-- One `set_value` call, seen as a transformation of the children list. -/
def setValCh (l : List Element) (k : String) : Option String → List Element
  | none => l
  | some v =>
    if l.any isCustomTag then mapFirstP isCustomTag (upsertValue k v) l
    else l ++ [upsertValue k v newCustom]

/-- The whole `set_value` sequence, on the children list. -/
def applyCh : List (String × Option String) → List Element → List Element
  | [], l => l
  | (k, v) :: rest, l => applyCh rest (setValCh l k v)

/-- One upsert, restricted to the suffix of the first `custom` block that the
purge did not keep. -/
def valsStep (w : List Element) (k v : String) : List Element :=
  if w.any (isValueWithKey k) then mapFirstP (isValueWithKey k) (fun c => c.withText v) w
  else w ++ [newValue k v]

/-- The upsert sequence restricted to that suffix. -/
def valsFold : List (String × Option String) → List Element → List Element
  | [], w => w
  | (_, none) :: rest, w => valsFold rest w
  | (k, some v) :: rest, w => valsFold rest (valsStep w k v)

/-- All present values in the pair list use keys that the purge predicate
drops (given the current build facts). -/
def pairsFlagged (build : Option BuildExtended) (pairs : List (String × Option String)) : Prop :=
  ∀ k v, (k, some v) ∈ pairs → keyKeep build k = false

@[simp]
theorem Element.withChildren_children (e : Element) (cs : List Element) :
    (e.withChildren cs).children = cs := by
  cases e; rfl

@[simp]
theorem Element.withChildren_tag (e : Element) (cs : List Element) :
    (e.withChildren cs).tag = e.tag := by
  cases e; rfl

@[simp]
theorem Element.withChildren_withChildren (e : Element) (a b : List Element) :
    (e.withChildren a).withChildren b = e.withChildren b := by
  cases e; rfl

@[simp]
theorem Element.withChildren_self (e : Element) : e.withChildren e.children = e := by
  cases e; rfl

@[simp]
theorem Element.withText_attrs (e : Element) (v : String) :
    (e.withText v).attrs = e.attrs := by
  cases e; rfl

@[simp]
theorem getAttr_withText (e : Element) (v k : String) :
    getAttr (e.withText v) k = getAttr e k := by
  simp [getAttr]

@[simp]
theorem purgeKeep_withText (build : Option BuildExtended) (e : Element) (v : String) :
    purgeKeep build (e.withText v) = purgeKeep build e := by
  simp [purgeKeep]

@[simp]
theorem isCustomTag_withChildren (c : Element) (l : List Element) :
    isCustomTag (c.withChildren l) = isCustomTag c := by
  simp [isCustomTag]

@[simp]
theorem isCustomTag_newCustom : isCustomTag newCustom = true := by decide

theorem purgeKeep_eq_keyKeep {build : Option BuildExtended} {e : Element} {k : String}
    (h : getAttr e "key" = some k) : purgeKeep build e = keyKeep build k := by
  simp [purgeKeep, h]

@[simp]
theorem getAttr_newValue (k v : String) : getAttr (newValue k v) "key" = some k := rfl

theorem purgeKeep_newValue (build : Option BuildExtended) (k v : String) :
    purgeKeep build (newValue k v) = keyKeep build k :=
  purgeKeep_eq_keyKeep (getAttr_newValue k v)

theorem isValueWithKey_getAttr {k : String} {e : Element}
    (h : isValueWithKey k e = true) : getAttr e "key" = some k := by
  simp [isValueWithKey] at h
  exact h.2

theorem mapFirstP_append_of_none {p : Element → Bool} {f : Element → Element}
    {A : List Element} (B : List Element) (h : ∀ e ∈ A, p e = false) :
    mapFirstP p f (A ++ B) = A ++ mapFirstP p f B := by
  induction A with
  | nil => rfl
  | cons a A ih =>
    have ha : p a = false := h a (by simp)
    simp only [List.cons_append, mapFirstP, ha]
    simp only [Bool.false_eq_true, if_false, List.cons.injEq, true_and]
    exact ih (fun e he => h e (by simp [he]))

theorem mapFirstP_cons_of_true {p : Element → Bool} {f : Element → Element}
    {c : Element} (B : List Element) (h : p c = true) :
    mapFirstP p f (c :: B) = f c :: B := by
  simp [mapFirstP, h]

theorem mapFirstP_forall {p : Element → Bool} {f : Element → Element}
    {Q : Element → Prop} {l : List Element}
    (hl : ∀ e ∈ l, Q e) (hf : ∀ e, Q e → Q (f e)) :
    ∀ e ∈ mapFirstP p f l, Q e := by
  induction l with
  | nil => simp [mapFirstP]
  | cons a l ih =>
    intro e he
    simp only [mapFirstP] at he
    by_cases hp : p a = true
    · rw [if_pos hp] at he
      rcases List.mem_cons.mp he with rfl | he
      · exact hf a (hl a (by simp))
      · exact hl e (by simp [he])
    · rw [if_neg hp] at he
      rcases List.mem_cons.mp he with rfl | he
      · exact hl e (by simp)
      · exact ih (fun x hx => hl x (by simp [hx])) e he

theorem map_eq_self_of {f : Element → Element} {l : List Element}
    (h : ∀ e ∈ l, f e = e) : l.map f = l := by
  induction l with
  | nil => rfl
  | cons a l ih =>
    simp only [List.map_cons, h a (by simp), List.cons.injEq, true_and]
    exact ih (fun e he => h e (by simp [he]))

theorem purgeElem_of_not_custom {build : Option BuildExtended} {e : Element}
    (h : isCustomTag e = false) : purgeElem build e = e := by
  simp only [isCustomTag, decide_eq_false_iff_not] at h
  simp [purgeElem, h]

theorem purgeElem_custom_withChildren {build : Option BuildExtended} {c : Element}
    (h : isCustomTag c = true) (l : List Element) :
    purgeElem build (c.withChildren l) =
      c.withChildren (l.filter (purgeKeep build)) := by
  simp only [isCustomTag, decide_eq_true_eq] at h
  simp [purgeElem, h]

theorem purgeElem_idem (build : Option BuildExtended) (e : Element) :
    purgeElem build (purgeElem build e) = purgeElem build e := by
  by_cases h : isCustomTag e = true
  · have h1 : purgeElem build e = e.withChildren (e.children.filter (purgeKeep build)) := by
      rw [← Element.withChildren_self e, purgeElem_custom_withChildren h]
      simp
    rw [h1, purgeElem_custom_withChildren h]
    congr 1
    rw [List.filter_eq_self]
    intro a ha
    exact (List.mem_filter.mp ha).2
  · have h2 := @purgeElem_of_not_custom build e (by simpa using h)
    rw [h2]
    exact h2

theorem set_value_fst (comp : Element) (k : String) (v : Option String) :
    (set_value comp k v).1 = comp.withChildren (setValCh comp.children k v) := by
  cases v with
  | none => simp [set_value, setValCh]
  | some v =>
    simp only [set_value, setValCh]
    by_cases h : comp.children.any isCustomTag = true
    · simp [h]
    · simp [h]

theorem applyFacts_fst (pairs : List (String × Option String)) (comp : Element) (b : Bool) :
    (applyFacts pairs (comp, b)).1 = comp.withChildren (applyCh pairs comp.children) := by
  induction pairs generalizing comp b with
  | nil => simp [applyFacts, applyCh]
  | cons kv rest ih =>
    obtain ⟨k, v⟩ := kv
    simp only [applyFacts, applyCh]
    rw [ih]
    rw [set_value_fst]
    simp

theorem valsFold_flagged {build : Option BuildExtended} {pairs : List (String × Option String)}
    (hp : pairsFlagged build pairs) :
    ∀ {w : List Element}, (∀ e ∈ w, purgeKeep build e = false) →
    ∀ e ∈ valsFold pairs w, purgeKeep build e = false := by
  induction pairs with
  | nil => intro w hw e he; exact hw e he
  | cons kv rest ih =>
    obtain ⟨k, v⟩ := kv
    have hrest : pairsFlagged build rest := fun k v hm => hp k v (List.mem_cons_of_mem _ hm)
    cases v with
    | none => intro w hw e he; exact ih hrest hw e he
    | some v =>
      intro w hw e he
      simp only [valsFold] at he
      refine ih hrest ?_ e he
      intro x hx
      unfold valsStep at hx
      by_cases ha : w.any (isValueWithKey k) = true
      · rw [if_pos ha] at hx
        exact mapFirstP_forall hw (fun e h => by simpa using h) x hx
      · rw [if_neg ha] at hx
        rcases List.mem_append.mp hx with hx | hx
        · exact hw x hx
        · have hxe : x = newValue k v := by simpa using hx
          rw [hxe, purgeKeep_newValue]
          exact hp k v (List.mem_cons_self _ _)

theorem applyCh_split {build : Option BuildExtended} {pairs : List (String × Option String)}
    (hp : pairsFlagged build pairs) :
    ∀ {w : List Element} (A : List Element) (c : Element) (S B : List Element),
    (∀ e ∈ A, isCustomTag e = false) → isCustomTag c = true →
    (∀ e ∈ S, purgeKeep build e = true) →
    applyCh pairs (A ++ c.withChildren (S ++ w) :: B) =
      A ++ c.withChildren (S ++ valsFold pairs w) :: B := by
  induction pairs with
  | nil => intro w A c S B hA hc hS; rfl
  | cons kv rest ih =>
    obtain ⟨k, v⟩ := kv
    intro w A c S B hA hc hS
    have hrest : pairsFlagged build rest := fun k v hm => hp k v (List.mem_cons_of_mem _ hm)
    cases v with
    | none => simpa [applyCh, setValCh, valsFold] using ih hrest A c S B hA hc hS
    | some v =>
      have hflag : keyKeep build k = false := hp k v (List.mem_cons_self _ _)
      have hSnone : ∀ e ∈ S, isValueWithKey k e = false := by
        intro e he
        cases hval : isValueWithKey k e with
        | false => rfl
        | true =>
          have h2 := hS e he
          rw [purgeKeep_eq_keyKeep (isValueWithKey_getAttr hval), hflag] at h2
          exact absurd h2 (by simp)
      have hcw : isCustomTag (c.withChildren (S ++ w)) = true := by simpa using hc
      have hany : (A ++ c.withChildren (S ++ w) :: B).any isCustomTag = true := by
        simp [List.any_append, hcw]
      simp only [applyCh, setValCh]
      rw [if_pos hany]
      rw [mapFirstP_append_of_none _ hA, mapFirstP_cons_of_true _ hcw]
      unfold upsertValue
      rw [Element.withChildren_children]
      have hanyval : (S ++ w).any (isValueWithKey k) = w.any (isValueWithKey k) := by
        rw [List.any_append]
        have hSany : S.any (isValueWithKey k) = false := by
          rw [List.any_eq_false]
          intro x hx
          simp [hSnone x hx]
        rw [hSany]
        simp
      rw [hanyval]
      by_cases hw : w.any (isValueWithKey k) = true
      · rw [if_pos hw]
        rw [mapFirstP_append_of_none _ hSnone]
        rw [Element.withChildren_withChildren]
        rw [ih hrest A c S B hA hc hS]
        simp [valsFold, valsStep, hw]
      · rw [if_neg hw]
        rw [Element.withChildren_withChildren, List.append_assoc]
        rw [ih hrest A c S B hA hc hS]
        simp [valsFold, valsStep, hw]

theorem exists_first_custom {l : List Element} (h : l.any isCustomTag = true) :
    ∃ A c B, l = A ++ c :: B ∧ (∀ e ∈ A, isCustomTag e = false) ∧ isCustomTag c = true := by
  induction l with
  | nil => simp at h
  | cons a l ih =>
    by_cases ha : isCustomTag a = true
    · exact ⟨[], a, l, rfl, by simp, ha⟩
    · have h' : l.any isCustomTag = true := by
        simp only [List.any_cons] at h
        rcases (Bool.or_eq_true _ _).mp h with h | h
        · exact absurd h ha
        · exact h
      obtain ⟨A, c, B, rfl, hA, hc⟩ := ih h'
      refine ⟨a :: A, c, B, rfl, ?_, hc⟩
      intro e he
      rcases List.mem_cons.mp he with rfl | he
      · simpa using ha
      · exact hA e he

theorem applyCh_no_custom {build : Option BuildExtended} {pairs : List (String × Option String)}
    (hp : pairsFlagged build pairs) :
    ∀ {l : List Element}, (∀ e ∈ l, isCustomTag e = false) →
    applyCh pairs l =
      if pairs.any (fun kv => kv.2.isSome) then
        l ++ [newCustom.withChildren (valsFold pairs [])]
      else l := by
  induction pairs with
  | nil => intro l hl; simp [applyCh]
  | cons kv rest ih =>
    obtain ⟨k, v⟩ := kv
    intro l hl
    have hrest : pairsFlagged build rest := fun k v hm => hp k v (List.mem_cons_of_mem _ hm)
    cases v with
    | none =>
      simp only [applyCh, setValCh, valsFold, List.any_cons, Option.isSome_none,
        Bool.false_or]
      exact ih hrest hl
    | some v =>
      have hanyl : l.any isCustomTag = false := by
        rw [List.any_eq_false]
        intro x hx
        simp [hl x hx]
      simp only [applyCh, setValCh]
      rw [if_neg (by simp [hanyl])]
      have hup : upsertValue k v newCustom = newCustom.withChildren ([] ++ [newValue k v]) := rfl
      rw [hup]
      rw [applyCh_split hrest l newCustom [] [] hl isCustomTag_newCustom (by simp)]
      simp [valsFold, valsStep, List.any_cons]

theorem applyCh_purge_fixed {build : Option BuildExtended}
    {pairs : List (String × Option String)} (hp : pairsFlagged build pairs)
    {l : List Element} (hl : ∀ e ∈ l, purgeElem build e = e) :
    applyCh pairs ((applyCh pairs l).map (purgeElem build)) = applyCh pairs l := by
  by_cases hany : l.any isCustomTag = true
  · obtain ⟨A, c, B, rfl, hA, hc⟩ := exists_first_custom hany
    have hcl : purgeElem build c = c := hl c (by simp)
    have hS : ∀ e ∈ c.children, purgeKeep build e = true := by
      have h1 : purgeElem build c = c.withChildren (c.children.filter (purgeKeep build)) := by
        conv_lhs => rw [← Element.withChildren_self c]
        rw [purgeElem_custom_withChildren hc]
      rw [hcl] at h1
      have h2 := congrArg Element.children h1
      simp only [Element.withChildren_children] at h2
      intro e he
      exact (List.mem_filter.mp (h2 ▸ he)).2
    have key : applyCh pairs (A ++ c :: B) =
        A ++ c.withChildren (c.children ++ valsFold pairs []) :: B := by
      have h3 := @applyCh_split build pairs hp [] A c c.children B hA hc hS
      simpa using h3
    have hWf : ∀ e ∈ valsFold pairs [], purgeKeep build e = false :=
      valsFold_flagged hp (by simp)
    have hpur : ((A ++ c.withChildren (c.children ++ valsFold pairs []) :: B).map
        (purgeElem build)) = A ++ c :: B := by
      rw [List.map_append, List.map_cons]
      have hmA : A.map (purgeElem build) = A :=
        map_eq_self_of (fun e he => hl e (by simp [he]))
      have hmB : B.map (purgeElem build) = B :=
        map_eq_self_of (fun e he => hl e (by simp [he]))
      rw [hmA, hmB]
      have hmid : purgeElem build (c.withChildren (c.children ++ valsFold pairs [])) = c := by
        rw [purgeElem_custom_withChildren hc, List.filter_append]
        rw [List.filter_eq_self.mpr hS]
        have hWnil : (valsFold pairs []).filter (purgeKeep build) = [] := by
          rw [List.filter_eq_nil_iff]
          intro a ha
          simp [hWf a ha]
        rw [hWnil]
        simp
      rw [hmid]
    rw [key, hpur, key]
  · have hnc : ∀ e ∈ l, isCustomTag e = false := by
      have h0 : l.any isCustomTag = false := by simpa using hany
      rw [List.any_eq_false] at h0
      intro e he
      simpa using h0 e he
    rw [applyCh_no_custom hp hnc]
    by_cases hs : pairs.any (fun kv => kv.2.isSome) = true
    · rw [if_pos hs]
      have hWf : ∀ e ∈ valsFold pairs [], purgeKeep build e = false :=
        valsFold_flagged hp (by simp)
      have hpur : (l ++ [newCustom.withChildren (valsFold pairs [])]).map (purgeElem build) =
          l ++ [newCustom] := by
        rw [List.map_append]
        have hmL : l.map (purgeElem build) = l := map_eq_self_of hl
        rw [hmL]
        simp only [List.map_cons, List.map_nil]
        rw [purgeElem_custom_withChildren isCustomTag_newCustom]
        have hWnil : (valsFold pairs []).filter (purgeKeep build) = [] := by
          rw [List.filter_eq_nil_iff]
          intro a ha
          simp [hWf a ha]
        rw [hWnil]
        rfl
      rw [hpur]
      have h3 := @applyCh_split build pairs hp [] l newCustom [] [] hnc isCustomTag_newCustom (by simp)
      simpa using h3
    · rw [if_neg hs]
      rw [map_eq_self_of hl]
      rw [applyCh_no_custom hp hnc, if_neg hs]

theorem factPairs_flagged (info : StorefrontInfo) (refstring : String)
    (build : Option BuildExtended) : pairsFlagged build (factPairs info refstring build) := by
  intro k v hm
  unfold factPairs at hm
  rcases List.mem_append.mp hm with hm | hm
  · rcases List.mem_append.mp hm with hm | hm
    · cases hv : info.verification with
      | none => rw [hv] at hm; simp at hm
      | some vv =>
        rw [hv] at hm
        simp only [List.mem_cons, List.not_mem_nil, or_false, Prod.mk.injEq] at hm
        rcases hm with ⟨rfl, -⟩ | ⟨rfl, -⟩ | ⟨rfl, -⟩ | ⟨rfl, -⟩ | ⟨rfl, -⟩ | ⟨rfl, -⟩ | ⟨rfl, -⟩ <;> rfl
    · cases hpr : info.pricing with
      | none => rw [hpr] at hm; simp at hm
      | some p =>
        rw [hpr] at hm
        simp only [List.mem_cons, List.not_mem_nil, or_false, Prod.mk.injEq] at hm
        rcases hm with ⟨rfl, -⟩ | ⟨rfl, -⟩ <;> rfl
  · cases hb : build with
    | none => rw [hb] at hm; simp at hm
    | some b =>
      rw [hb] at hm
      simp only [List.mem_cons, List.not_mem_nil, or_false, Prod.mk.injEq] at hm
      rcases hm with ⟨rfl, -⟩ | ⟨rfl, -⟩ <;> rfl

theorem rewriteComponent_fixed (info : StorefrontInfo) (refstring : String)
    (build : Option BuildExtended) (comp : Element) :
    (rewriteComponent info refstring build
      ((rewriteComponent info refstring build comp).1)).1 =
    (rewriteComponent info refstring build comp).1 := by
  have hp := factPairs_flagged info refstring build
  have h1 : (rewriteComponent info refstring build comp).1 =
      comp.withChildren (applyCh (factPairs info refstring build)
        (comp.children.map (purgeElem build))) := by
    unfold rewriteComponent
    rw [applyFacts_fst]
    simp [purgeComponent]
  have hl0p : ∀ e ∈ comp.children.map (purgeElem build), purgeElem build e = e := by
    intro e he
    obtain ⟨x, hx, rfl⟩ := List.mem_map.mp he
    exact purgeElem_idem build x
  have h2 : (rewriteComponent info refstring build
      (comp.withChildren (applyCh (factPairs info refstring build)
        (comp.children.map (purgeElem build))))).1 =
      comp.withChildren (applyCh (factPairs info refstring build)
        ((applyCh (factPairs info refstring build)
          (comp.children.map (purgeElem build))).map (purgeElem build))) := by
    unfold rewriteComponent
    rw [applyFacts_fst]
    simp [purgeComponent]
  rw [h1, h2, applyCh_purge_fixed hp hl0p]

theorem rewrite_appstream_xml_singleton (info : StorefrontInfo) (refstring : String)
    (build : Option BuildExtended) (doc comp : Element) (h : doc.children = [comp]) :
    rewrite_appstream_xml info refstring build doc =
      if (rewriteComponent info refstring build comp).2 then
        .ok (doc.withChildren [(rewriteComponent info refstring build comp).1])
      else .ok doc := by
  unfold rewrite_appstream_xml
  rw [h]

/-- Claim C1: applying the appstream fact-injection rewrite twice with the
same storefront info, build facts and refstring yields output identical to
applying it once: whenever `rewrite_appstream_xml` succeeds, its result is a
fixed point of the same rewrite. -/
theorem c1_rewrite_appstream_xml_idempotent (info : StorefrontInfo) (refstring : String)
    (build : Option BuildExtended) (doc out : Element)
    (h : rewrite_appstream_xml info refstring build doc = .ok out) :
    rewrite_appstream_xml info refstring build out = .ok out := by
  rcases hd : doc.children with _ | ⟨comp, _ | ⟨c2, cs⟩⟩
  · unfold rewrite_appstream_xml at h
    rw [hd] at h
    exact absurd h (by simp)
  · rw [rewrite_appstream_xml_singleton info refstring build doc comp hd] at h
    by_cases hch : (rewriteComponent info refstring build comp).2 = true
    · rw [if_pos hch] at h
      injection h with h'
      subst h'
      rw [rewrite_appstream_xml_singleton info refstring build
        (doc.withChildren [(rewriteComponent info refstring build comp).1])
        ((rewriteComponent info refstring build comp).1) (by simp)]
      rw [rewriteComponent_fixed]
      split
      · simp
      · rfl
    · rw [if_neg hch] at h
      injection h with h'
      subst h'
      rw [rewrite_appstream_xml_singleton info refstring build doc comp hd, if_neg hch]
  · unfold rewrite_appstream_xml at h
    rw [hd] at h
    exact absurd h (by simp)

/-- Concrete storefront info for the C1 witness. -/
def sampleInfo : StorefrontInfo :=
  ⟨some ⟨true, none, none, none, none, none, none⟩, none, none⟩

/-- Concrete input document for the C1 witness. -/
def sampleDoc : Element := .mk "components" [] "" "" [.mk "component" [] "" "" []]

/-- The rewrite of `sampleDoc` under `sampleInfo`. -/
def sampleOut : Element :=
  .mk "components" [] "" ""
    [.mk "component" [] "" ""
      [.mk "custom" [] "" "\n  "
        [.mk "value" [("key", "flathub::verification::verified")] "true" "\n  " [],
         .mk "value" [("key", "flathub::verification::login_is_organization")] "false" "\n  " []]]]

/-- Witness for C1 at a concrete input. -/
theorem c1_rewrite_appstream_xml_idempotent_witness :
    rewrite_appstream_xml sampleInfo "app/x/y/z" none sampleOut = .ok sampleOut :=
  c1_rewrite_appstream_xml_idempotent sampleInfo "app/x/y/z" none sampleDoc sampleOut (by decide)

theorem find?_append_none {α : Type} {p : α → Bool} {l1 : List α} (l2 : List α)
    (h : l1.find? p = none) : (l1 ++ l2).find? p = l2.find? p := by
  induction l1 with
  | nil => rfl
  | cons a l ih =>
    rw [List.find?_cons] at h
    rcases hp : p a with _ | _
    · rw [hp] at h
      rw [List.cons_append, List.find?_cons, hp]
      exact ih h
    · rw [hp] at h
      exact absurd h (by simp)

theorem find?_map_replace (d : List (String × MetaValue)) (k : String) (v : MetaValue)
    (h : d.any (fun p => p.1 = k) = true) :
    (d.map (fun p => if p.1 = k then (k, v) else p)).find? (fun p => p.1 = k) = some (k, v) := by
  induction d with
  | nil => simp at h
  | cons p rest ih =>
    by_cases hp : p.1 = k
    · rw [List.map_cons, if_pos hp]
      rw [List.find?_cons_of_pos _ (by simp)]
    · rw [List.map_cons, if_neg hp]
      rw [List.find?_cons_of_neg _ (by simpa using hp)]
      apply ih
      simp only [List.any_cons] at h
      rcases (Bool.or_eq_true _ _).mp h with h | h
      · exact absurd (by simpa using h) hp
      · exact h

theorem find?_map_replace_ne (d : List (String × MetaValue)) (k k' : String) (v : MetaValue)
    (hne : k' ≠ k) :
    (d.map (fun p => if p.1 = k then (k, v) else p)).find? (fun p => p.1 = k') =
      d.find? (fun p => p.1 = k') := by
  induction d with
  | nil => rfl
  | cons p rest ih =>
    by_cases hp : p.1 = k
    · rw [List.map_cons, if_pos hp]
      rw [List.find?_cons_of_neg _ (by simp [Ne.symm hne]),
          List.find?_cons_of_neg _ (by simp [hp, Ne.symm hne])]
      exact ih
    · rw [List.map_cons, if_neg hp]
      by_cases hp' : p.1 = k'
      · rw [List.find?_cons_of_pos _ (by simpa using hp'),
            List.find?_cons_of_pos _ (by simpa using hp')]
      · rw [List.find?_cons_of_neg _ (by simpa using hp'),
            List.find?_cons_of_neg _ (by simpa using hp')]
        exact ih

theorem find?_filter_of_imp {α : Type} (l : List α) (p q : α → Bool)
    (h : ∀ x, p x = true → q x = true) : (l.filter q).find? p = l.find? p := by
  induction l with
  | nil => rfl
  | cons a l ih =>
    by_cases hq : q a = true
    · rw [List.filter_cons_of_pos hq]
      by_cases hp : p a = true
      · rw [List.find?_cons_of_pos _ hp, List.find?_cons_of_pos _ hp]
      · rw [List.find?_cons_of_neg _ (by simpa using hp),
            List.find?_cons_of_neg _ (by simpa using hp)]
        exact ih
    · rw [List.filter_cons_of_neg (by simpa using hq)]
      have hp : p a = false := by
        cases hpa : p a with
        | false => rfl
        | true => exact absurd (h a hpa) hq
      rw [List.find?_cons_of_neg _ (by simp [hp])]
      exact ih

theorem vdLookup_vdInsert_self (d : VariantDict) (k : String) (v : MetaValue) :
    vdLookup (vdInsert d k v) k = some v := by
  unfold vdInsert vdLookup
  by_cases h : d.any (fun p => p.1 = k) = true
  · rw [if_pos h, find?_map_replace d k v h]
    rfl
  · rw [if_neg h]
    have hnone : d.find? (fun p => p.1 = k) = none := by
      rw [List.find?_eq_none]
      intro x hx
      simp only [List.any_eq_true] at h
      push_neg at h
      simpa using h x hx
    rw [find?_append_none _ hnone]
    rw [List.find?_cons_of_pos _ (by simp)]
    rfl

theorem vdLookup_vdInsert_ne (d : VariantDict) (k : String) (v : MetaValue) (k' : String)
    (hne : k' ≠ k) : vdLookup (vdInsert d k v) k' = vdLookup d k' := by
  unfold vdInsert vdLookup
  by_cases h : d.any (fun p => p.1 = k) = true
  · rw [if_pos h, find?_map_replace_ne d k k' v hne]
  · rw [if_neg h]
    cases hf : d.find? (fun p => p.1 = k') with
    | some x => rw [List.find?_append, hf]; rfl
    | none =>
      rw [find?_append_none _ hf]
      rw [List.find?_cons_of_neg _ (by simp [Ne.symm hne])]
      rfl

theorem vdLookup_vdRemove_self (d : VariantDict) (k : String) :
    vdLookup (vdRemove d k) k = none := by
  unfold vdRemove vdLookup
  have : (d.filter (fun p => !(p.1 = k : Bool))).find? (fun p => p.1 = k) = none := by
    rw [List.find?_eq_none]
    intro x hx
    have := (List.mem_filter.mp hx).2
    simpa using this
  rw [this]
  rfl

theorem vdLookup_vdRemove_ne (d : VariantDict) (k : String) (k' : String)
    (hne : k' ≠ k) : vdLookup (vdRemove d k) k' = vdLookup d k' := by
  unfold vdRemove vdLookup
  rw [find?_filter_of_imp]
  intro x hx
  simp only [decide_eq_true_eq] at hx
  simp [hx, hne]

theorem vdLookup_rewrite_metadata_subsets (metadata : VariantDict) (info : StorefrontInfo) :
    vdLookup (rewrite_metadata metadata info) "xa.subsets" =
      if (list_subsets info).isEmpty then none
      else some (.strv (list_subsets info)) := by
  simp only [rewrite_metadata]
  by_cases h : (list_subsets info).isEmpty = true
  · rw [if_pos h, if_pos h]
    split
    · rw [vdLookup_vdInsert_ne _ _ _ _ (by decide), vdLookup_vdRemove_self]
    · rw [vdLookup_vdRemove_ne _ _ _ (by decide), vdLookup_vdRemove_self]
  · rw [if_neg h, if_neg h]
    split
    · rw [vdLookup_vdInsert_ne _ _ _ _ (by decide), vdLookup_vdInsert_self]
    · rw [vdLookup_vdRemove_ne _ _ _ (by decide), vdLookup_vdInsert_self]

theorem vdLookup_rewrite_metadata_token (metadata : VariantDict) (info : StorefrontInfo) :
    vdLookup (rewrite_metadata metadata info) "xa.token-type" =
      if is_paid info then some (.int 1) else none := by
  simp only [rewrite_metadata]
  by_cases h : is_paid info = true
  · rw [if_pos h, if_pos h, vdLookup_vdInsert_self]
  · rw [if_neg h, if_neg h, vdLookup_vdRemove_self]

/-- Claim C3: during the stale-key purge of `custom` entries whose key starts
(case-insensitively) with `flathub::`, a `flathub::manifest` entry is always
kept; a `flathub::build::`-prefixed entry is kept exactly when no build facts
are supplied (build is `none`); every other `flathub::`-prefixed entry is
dropped, is absent from the purged block, and marks the document changed. -/
theorem c3_stale_key_purge (build : Option BuildExtended) (e : Element) (k : String)
    (hk : getAttr e "key" = some k)
    (hfh : strStartsWith (lowerStr k) "flathub::" = true) :
    (lowerStr k = "flathub::manifest" → purgeKeep build e = true) ∧
    (strStartsWith (lowerStr k) "flathub::build::" = true →
      (purgeKeep build e = true ↔ build = none)) ∧
    (lowerStr k ≠ "flathub::manifest" →
      strStartsWith (lowerStr k) "flathub::build::" = false → purgeKeep build e = false) ∧
    (lowerStr k ≠ "flathub::manifest" → build.isSome = true → purgeKeep build e = false) ∧
    (∀ custom : Element, custom.tag = "custom" →
      (e ∈ (purgeElem build custom).children ↔
        e ∈ custom.children ∧ purgeKeep build e = true)) ∧
    (∀ comp custom : Element, custom ∈ comp.children → custom.tag = "custom" →
      e ∈ custom.children → purgeKeep build e = false →
      purgeRemovedAny build comp = true) := by
  rw [purgeKeep_eq_keyKeep hk]
  refine ⟨?_, ?_, ?_, ?_, ?_, ?_⟩
  · intro hman
    unfold keyKeep
    rw [if_pos hfh, if_pos hman]
  · intro hbuild
    have hman : lowerStr k ≠ "flathub::manifest" := by
      intro hman
      rw [hman] at hbuild
      exact absurd hbuild (by decide)
    unfold keyKeep
    rw [if_pos hfh, if_neg hman, hbuild]
    cases build with
    | none => simp
    | some b => simp
  · intro hman hbuild
    unfold keyKeep
    rw [if_pos hfh, if_neg hman, hbuild]
    simp
  · intro hman hsome
    unfold keyKeep
    rw [if_pos hfh, if_neg hman]
    rcases build with _ | b
    · exact absurd hsome (by simp)
    · simp
  · intro custom hct
    unfold purgeElem
    rw [if_pos hct, Element.withChildren_children, List.mem_filter]
    rw [purgeKeep_eq_keyKeep hk]
  · intro comp custom hmem hct hin hdrop
    unfold purgeRemovedAny
    rw [List.any_eq_true]
    refine ⟨custom, hmem, ?_⟩
    have h1 : decide (custom.tag = "custom") = true := by simp [hct]
    rw [h1, Bool.true_and, List.any_eq_true]
    exact ⟨e, hin, by simp [purgeKeep_eq_keyKeep hk, hdrop]⟩

/-- A build record used by witnesses. -/
def sampleBuild : BuildExtended := ⟨⟨none⟩, []⟩

/-- Witness for C3 at concrete entries: the manifest key survives with fresh
build facts, a build-log key survives exactly on republish (no build facts),
and a plain verification key is dropped. -/
theorem c3_stale_key_purge_witness :
    purgeKeep (some sampleBuild)
      (.mk "value" [("key", "flathub::manifest")] "x" "" []) = true ∧
    purgeKeep (some sampleBuild)
      (.mk "value" [("key", "flathub::build::build_log_url")] "x" "" []) = false ∧
    purgeKeep none
      (.mk "value" [("key", "flathub::build::build_log_url")] "x" "" []) = true ∧
    purgeKeep (some sampleBuild)
      (.mk "value" [("key", "flathub::verification::verified")] "x" "" []) = false :=
  ⟨(c3_stale_key_purge (some sampleBuild) _ "flathub::manifest" (by decide) (by decide)).1
      (by decide),
   by
     have h := (c3_stale_key_purge (some sampleBuild)
       (.mk "value" [("key", "flathub::build::build_log_url")] "x" "" [])
       "flathub::build::build_log_url" (by decide) (by decide)).2.1 (by decide)
     cases hc : purgeKeep (some sampleBuild)
       (.mk "value" [("key", "flathub::build::build_log_url")] "x" "" []) with
     | false => rfl
     | true => exact absurd (h.mp hc) (by decide),
   by
     have h := (c3_stale_key_purge none
       (.mk "value" [("key", "flathub::build::build_log_url")] "x" "" [])
       "flathub::build::build_log_url" (by decide) (by decide)).2.1 (by decide)
     exact h.mpr rfl,
   (c3_stale_key_purge (some sampleBuild)
       (.mk "value" [("key", "flathub::verification::verified")] "x" "" [])
       "flathub::verification::verified" (by decide) (by decide)).2.2.1
     (by decide) (by decide)⟩

/-- Claim C4: `list_subsets` contains `"verified"` iff the verification
record is present and verified, `"floss"` iff `is_free_software` is
`some true`, `"verified_floss"` iff both (and in that order when both hold);
and `rewrite_metadata` removes `xa.subsets` when the list is empty instead of
storing an empty list, storing the list otherwise. -/
theorem c4_subset_derivation (info : StorefrontInfo) (d : VariantDict) :
    (("verified" ∈ list_subsets info) ↔
      (∃ v, info.verification = some v ∧ v.verified = true)) ∧
    (("floss" ∈ list_subsets info) ↔ info.is_free_software = some true) ∧
    (("verified_floss" ∈ list_subsets info) ↔
      ((∃ v, info.verification = some v ∧ v.verified = true) ∧
        info.is_free_software = some true)) ∧
    ((∃ v, info.verification = some v ∧ v.verified = true) →
      info.is_free_software = some true →
      list_subsets info = ["verified", "floss", "verified_floss"]) ∧
    (list_subsets info = [] →
      vdLookup (rewrite_metadata d info) "xa.subsets" = none) ∧
    (list_subsets info ≠ [] →
      vdLookup (rewrite_metadata d info) "xa.subsets" = some (.strv (list_subsets info))) := by
  obtain ⟨ver, pr, fs⟩ := info
  refine ⟨?_, ?_, ?_, ?_, ?_, ?_⟩
  · rcases ver with _ | v
    · rcases fs with _ | b
      · simp [list_subsets]
      · cases b <;> simp [list_subsets]
    · rcases fs with _ | b
      · cases hvb : v.verified <;> simp [list_subsets, hvb]
      · cases b <;> cases hvb : v.verified <;> simp [list_subsets, hvb]
  · rcases ver with _ | v
    · rcases fs with _ | b
      · simp [list_subsets]
      · cases b <;> simp [list_subsets]
    · rcases fs with _ | b
      · cases hvb : v.verified <;> simp [list_subsets, hvb]
      · cases b <;> cases hvb : v.verified <;> simp [list_subsets, hvb]
  · rcases ver with _ | v
    · rcases fs with _ | b
      · simp [list_subsets]
      · cases b <;> simp [list_subsets]
    · rcases fs with _ | b
      · cases hvb : v.verified <;> simp [list_subsets, hvb]
      · cases b <;> cases hvb : v.verified <;> simp [list_subsets, hvb]
  · intro h41 h42
    obtain ⟨v', hv', hvb'⟩ := h41
    rcases ver with _ | v
    · cases hv'
    · injection hv' with he
      subst he
      subst h42
      simp [list_subsets, hvb']
  · intro h5
    rw [vdLookup_rewrite_metadata_subsets, h5]
    rfl
  · intro h6
    rw [vdLookup_rewrite_metadata_subsets]
    rw [if_neg (by simpa [List.isEmpty_iff] using h6)]

/-- Witness for C4 at concrete storefront facts. -/
theorem c4_subset_derivation_witness :
    list_subsets ⟨some ⟨true, none, none, none, none, none, none⟩, none, some true⟩ =
      ["verified", "floss", "verified_floss"] ∧
    vdLookup (rewrite_metadata [] ⟨none, none, some false⟩) "xa.subsets" = none :=
  ⟨(c4_subset_derivation ⟨some ⟨true, none, none, none, none, none, none⟩, none, some true⟩
      []).2.2.2.1 ⟨_, rfl, rfl⟩ rfl,
   (c4_subset_derivation ⟨none, none, some false⟩ []).2.2.2.2.1 (by decide)⟩

/-- Claim C5: `rewrite_metadata` sets `xa.token-type` to the integer 1 iff
the pricing record is present with a strictly positive recommended donation
or minimum payment; otherwise the key is removed, never set to 0. -/
theorem c5_token_type (info : StorefrontInfo) (d : VariantDict) :
    ((is_paid info = true) ↔
      (∃ p, info.pricing = some p ∧
        ((∃ x, p.recommended_donation = some x ∧ 0 < x) ∨
         (∃ x, p.minimum_payment = some x ∧ 0 < x)))) ∧
    (is_paid info = true →
      vdLookup (rewrite_metadata d info) "xa.token-type" = some (.int 1)) ∧
    (is_paid info = false →
      vdLookup (rewrite_metadata d info) "xa.token-type" = none) := by
  refine ⟨?_, ?_, ?_⟩
  · unfold is_paid
    rcases hpr : info.pricing with _ | p
    · simp
    · rcases hrd : p.recommended_donation with _ | x <;>
        rcases hmp : p.minimum_payment with _ | y <;>
        simp [hrd, hmp]
  · intro h
    rw [vdLookup_rewrite_metadata_token, if_pos h]
  · intro h
    rw [vdLookup_rewrite_metadata_token, if_neg (by simp [h])]

/-- Witness for C5: donation 1 sets token-type to 1; donation 0 and minimum
payment 0 remove the key. -/
theorem c5_token_type_witness :
    vdLookup (rewrite_metadata [] ⟨none, some ⟨some 1, none⟩, none⟩) "xa.token-type" =
      some (.int 1) ∧
    vdLookup (rewrite_metadata [] ⟨none, some ⟨some 0, some 0⟩, none⟩) "xa.token-type" =
      none :=
  ⟨(c5_token_type ⟨none, some ⟨some 1, none⟩, none⟩ []).2.1 (by decide),
   (c5_token_type ⟨none, some ⟨some 0, some 0⟩, none⟩ []).2.2 (by decide)⟩

/-- Claim C6: when the validation run contains an error-severity diagnostic,
the reported status is `Failed` with the fixed reason — downgraded to
`PassedWithWarnings` under the observe-only flag — the full diagnostics list
is still sent, and the moderation step does not run. -/
theorem c6_validation_failure_stops_review (validation_observe_only : Bool)
    (validationDiags moderationDiags : List ValidationDiagnostic) (requires_review : Bool)
    (h : validationDiags.any (fun d => !d.is_warning) = true) :
    (do_review_outcome validation_observe_only validationDiags moderationDiags
        requires_review).status =
      (if validation_observe_only then
        CheckStatus.PassedWithWarnings "One or more validations failed."
       else CheckStatus.Failed "One or more validations failed.") ∧
    (do_review_outcome validation_observe_only validationDiags moderationDiags
        requires_review).results = validationDiags ∧
    (do_review_outcome validation_observe_only validationDiags moderationDiags
        requires_review).moderationRan = false := by
  unfold do_review_outcome
  rw [if_pos h]
  exact ⟨rfl, rfl, rfl⟩

/-- Witness for C6 at one error diagnostic, in observe-only mode. -/
theorem c6_validation_failure_stops_review_witness :
    (do_review_outcome true [⟨none, false, .MissingBuildLogUrl⟩] [] false).status =
      CheckStatus.PassedWithWarnings "One or more validations failed." ∧
    (do_review_outcome true [⟨none, false, .MissingBuildLogUrl⟩] [] false).moderationRan =
      false :=
  ⟨((c6_validation_failure_stops_review true [⟨none, false, .MissingBuildLogUrl⟩] [] false
      (by decide)).1),
   ((c6_validation_failure_stops_review true [⟨none, false, .MissingBuildLogUrl⟩] [] false
      (by decide)).2.2)⟩

theorem review_fold_append (refstring : String) (files : List ScannedFile)
    (acc : List WrongArchExecutable) :
    files.foldl (fun acc f => review_file refstring f acc) acc =
      acc ++ mismatched_executables refstring files := by
  induction files generalizing acc with
  | nil => simp [mismatched_executables]
  | cons f fs ih =>
    simp only [List.foldl_cons]
    rw [ih]
    unfold review_file review_executable_file mismatched_executables
    by_cases hex : f.is_executable = true
    · cases hm : f.elf_machine with
      | none => simp [hex, hm, List.filterMap_cons, mismatched_executables]
      | some m =>
        by_cases hacc : (expected_codes (arch_from_ref refstring)).any (fun x => x = m) = true
        · have hmem : m ∈ expected_codes (arch_from_ref refstring) := by
            simp only [List.any_eq_true, decide_eq_true_eq] at hacc
            obtain ⟨x, hx, rfl⟩ := hacc
            exact hx
          simp [hex, hm, hacc, hmem, List.filterMap_cons, mismatched_executables]
        · have hmem : ¬ m ∈ expected_codes (arch_from_ref refstring) := by
            intro hmm
            exact hacc (by simp only [List.any_eq_true, decide_eq_true_eq]; exact ⟨m, hmm, rfl⟩)
          simp [hex, hm, hacc, hmem, List.filterMap_cons, mismatched_executables]
    · simp [hex, List.filterMap_cons, mismatched_executables]

/-- Claim C7: the scanner accepts machine codes `EM_X86_64` and `EM_386` for
`x86_64` refs, only `EM_AARCH64` for `aarch64` refs, and nothing for any
other ref architecture; all mismatching executables under one ref are
reported as exactly one warning-severity `WrongArchExecutables` diagnostic
listing each offending path, detected architecture name and raw machine
code — never one diagnostic per file. -/
theorem c7_wrong_arch_scanner (refstring : String) (files : List ScannedFile) :
    ((arch_from_ref refstring = "x86_64" →
       expected_codes (arch_from_ref refstring) = [EM_X86_64, EM_386]) ∧
     (arch_from_ref refstring = "aarch64" →
       expected_codes (arch_from_ref refstring) = [EM_AARCH64]) ∧
     (arch_from_ref refstring ≠ "x86_64" → arch_from_ref refstring ≠ "aarch64" →
       expected_codes (arch_from_ref refstring) = [])) ∧
    (mismatched_executables refstring files = [] → review_files files refstring = []) ∧
    (mismatched_executables refstring files ≠ [] →
      review_files files refstring =
        [{ refstring := some refstring, is_warning := true,
           info := .WrongArchExecutables (arch_from_ref refstring)
             (mismatched_executables refstring files) }]) := by
  refine ⟨⟨?_, ?_, ?_⟩, ?_, ?_⟩
  · intro h
    unfold expected_codes
    rw [if_pos h]
  · intro h
    unfold expected_codes
    rw [if_neg (by simp [h]), if_pos h]
  · intro h1 h2
    unfold expected_codes
    rw [if_neg h1, if_neg h2]
  · intro h
    unfold review_files
    rw [review_fold_append refstring files [], List.nil_append, h]
    rfl
  · intro h
    unfold review_files
    rw [review_fold_append refstring files [], List.nil_append]
    rw [if_neg (by simpa [List.isEmpty_iff] using h)]

/-- Witness for C7: one `aarch64` binary under an `x86_64` ref yields exactly
one warning diagnostic listing it. -/
theorem c7_wrong_arch_scanner_witness :
    review_files [⟨"/app/bin/foo", true, some 183⟩] "app/org.x.y/x86_64/stable" =
      [{ refstring := some "app/org.x.y/x86_64/stable", is_warning := true,
         info := .WrongArchExecutables "x86_64" [⟨"/app/bin/foo", "EM_AARCH64", 183⟩] }] := by
  have h := (c7_wrong_arch_scanner "app/org.x.y/x86_64/stable"
    [⟨"/app/bin/foo", true, some 183⟩]).2.2 (by decide)
  rw [h]
  decide

/-- Claim C9: with no local icon, `validate_appstream_component` emits
exactly one icon diagnostic — a warning `NoLocalIcon` when the component
declares a remote icon, an error `MissingIcon` otherwise; with a local icon
it emits no icon diagnostic. -/
theorem c9_icon_policy (component : Element) (refstring : String) (appstream_path : String) :
    ((validate_appstream_component component refstring appstream_path false).filter
        isIconDiag =
      (if (component.children.filter (fun c => c.tag = "icon")).any
          (fun icon => getAttr icon "type" = some "remote") then
        [{ refstring := some refstring, is_warning := true,
           info := .NoLocalIcon appstream_path }]
      else
        [{ refstring := some refstring, is_warning := false,
           info := .MissingIcon appstream_path }])) ∧
    ((validate_appstream_component component refstring appstream_path true).filter
        isIconDiag = []) := by
  constructor
  · unfold validate_appstream_component
    cases hid : check_appstream_component_id component refstring with
    | error e =>
      by_cases hr : (component.children.filter (fun c => c.tag = "icon")).any
          (fun icon => getAttr icon "type" = some "remote") = true
      · simp [hr, List.filter_append, isIconDiag]
      · simp [hr, List.filter_append, isIconDiag]
    | ok u =>
      by_cases hr : (component.children.filter (fun c => c.tag = "icon")).any
          (fun icon => getAttr icon "type" = some "remote") = true
      · simp [hr, List.filter_append, isIconDiag]
      · simp [hr, List.filter_append, isIconDiag]
  · unfold validate_appstream_component
    cases hid : check_appstream_component_id component refstring with
    | error e => simp [List.filter_append, isIconDiag]
    | ok u => simp [List.filter_append, isIconDiag]

/-- Claim C10: the value written for
`flathub::verification::login_is_organization` is `"true"` iff the
`login_is_organization` field is present (even as `Some false`), and
`"false"` exactly when it is absent — it depends only on presence. -/
theorem c10_login_is_organization (info : StorefrontInfo) (v : VerificationInfo)
    (refstring : String) (build : Option BuildExtended)
    (h : info.verification = some v) :
    ((factPairs info refstring build).lookup
        "flathub::verification::login_is_organization" =
      some (some (if v.login_is_organization.isSome then "true" else "false"))) ∧
    (((factPairs info refstring build).lookup
        "flathub::verification::login_is_organization" = some (some "true")) ↔
      v.login_is_organization.isSome = true) ∧
    (v.login_is_organization = some false →
      (factPairs info refstring build).lookup
        "flathub::verification::login_is_organization" = some (some "true")) := by
  have h1 : (factPairs info refstring build).lookup
      "flathub::verification::login_is_organization" =
      some (some (if v.login_is_organization.isSome then "true" else "false")) := by
    simp [factPairs, h, List.lookup]
  refine ⟨h1, ?_, ?_⟩
  · rw [h1]
    rcases hlo : v.login_is_organization with _ | b
    · simp [hlo]
    · simp [hlo]
  · intro hlo
    rw [h1, hlo]
    rfl

/-- Witness for C10: a present `Some false` is rendered as `"true"`. -/
theorem c10_login_is_organization_witness :
    (factPairs ⟨some ⟨false, none, none, none, none, none, some false⟩, none, none⟩
        "r" none).lookup "flathub::verification::login_is_organization" =
      some (some "true") :=
  (c10_login_is_organization
      ⟨some ⟨false, none, none, none, none, none, some false⟩, none, none⟩
      ⟨false, none, none, none, none, none, some false⟩ "r" none rfl).2.2 rfl

/-- A root with exactly one child element that is not a component. -/
def c8Doc : Element := .mk "components" [] "" "" [.mk "provides" [] "" "" []]

/-- Counterexample to claim C8 as stated: this document has zero top-level
`component` elements, yet `rewrite_appstream_xml` proceeds without an error —
the code counts the root's children regardless of their tag. -/
theorem c8_component_count_counterexample :
    (c8Doc.children.filter (fun c => c.tag = "component")).length = 0 ∧
    rewrite_appstream_xml ⟨none, none, none⟩ "app/x/y/z" none c8Doc = .ok c8Doc := by
  decide

/-- Claim C8 (amended): `rewrite_appstream_xml` fails with an error naming
the count exactly when the root does not have exactly one top-level child
element of any tag; with exactly one child it always proceeds. -/
theorem c8_single_child_gate (info : StorefrontInfo) (refstring : String)
    (build : Option BuildExtended) (doc : Element) :
    (doc.children.length ≠ 1 →
      rewrite_appstream_xml info refstring build doc =
        .error ("Expected exactly 1 <component> tag, found " ++
          toString doc.children.length)) ∧
    (doc.children.length = 1 →
      ∃ out, rewrite_appstream_xml info refstring build doc = .ok out) := by
  constructor
  · intro h
    rcases hd : doc.children with _ | ⟨c, _ | ⟨c2, cs⟩⟩
    · unfold rewrite_appstream_xml
      rw [hd]
    · exact absurd (by simp [hd]) h
    · unfold rewrite_appstream_xml
      rw [hd]
  · intro h
    rcases hd : doc.children with _ | ⟨c, _ | ⟨c2, cs⟩⟩
    · rw [hd] at h
      simp at h
    · rw [rewrite_appstream_xml_singleton info refstring build doc c hd]
      split
      · exact ⟨_, rfl⟩
      · exact ⟨_, rfl⟩
    · rw [hd] at h
      simp at h

/-- A root with two child elements, one of them a component. -/
def c8TwoDoc : Element :=
  .mk "components" [] "" "" [.mk "component" [] "" "" [], .mk "provides" [] "" "" []]

/-- Witness for the amended C8: a two-child root errors naming the count, a
one-child root proceeds. -/
theorem c8_single_child_gate_witness :
    rewrite_appstream_xml ⟨none, none, none⟩ "app/x/y/z" none c8TwoDoc =
      .error ("Expected exactly 1 <component> tag, found " ++
        toString c8TwoDoc.children.length) ∧
    ∃ out, rewrite_appstream_xml ⟨none, none, none⟩ "app/x/y/z" none c8Doc = .ok out :=
  ⟨(c8_single_child_gate ⟨none, none, none⟩ "app/x/y/z" none c8TwoDoc).1 (by decide),
   (c8_single_child_gate ⟨none, none, none⟩ "app/x/y/z" none c8Doc).2 (by decide)⟩

/-- The appstream document used by the C2 counterexample: the rewrite with
empty storefront facts leaves it unchanged. -/
def cexDoc : Element := .mk "components" [] "" "" [.mk "component" [] "" "" []]

/-- The tree of the C2 counterexample commit, carrying the appstream file at
its canonical path. -/
def cexTree : MTree :=
  .node [] [("files", .node [] [("share", .node [] [("app-info", .node []
    [("xmls", .node [("org.flathub.Test.xml.gz", cexDoc)] [])])])])]

/-- The C2 counterexample commit: its metadata still carries a stale
`xa.token-type` entry. -/
def cexCommit : Commit := ⟨none, "s", "b", 0, [("xa.token-type", .int 1)], cexTree⟩

/-- Counterexample to claim C2 as stated: the appstream rewrite returns the
document byte-identical to the original, yet `rewrite_ref` still calls
`transaction_set_ref`, because `rewrite_metadata` removes the stale
`xa.token-type` entry and the commit checksum changes. -/
theorem c2_unchanged_ref_counterexample :
    rewrite_appstream_xml ⟨none, none, none⟩ "app/org.flathub.Test/x86_64/stable" none
      cexDoc = .ok cexDoc ∧
    (rewrite_ref ⟨none, none, none⟩ none "app/org.flathub.Test/x86_64/stable"
        cexCommit).map (fun r => r.setRef.isSome) = .ok true := by
  decide

/-- Claim C2 (amended): a byte-identical appstream rewrite guarantees that no
replacement file is written and the tree is unchanged; and the ref pointer is
untouched (`transaction_set_ref` not called) exactly when the rewritten
commit equals the original commit — which a byte-identical document alone
does not guarantee, since the commit metadata may still change. -/
theorem c2_no_op_detection (info : StorefrontInfo) (build : Option BuildExtended)
    (refstring : String) (commit : Commit) (res : RefRewrite)
    (h : rewrite_ref info build refstring commit = .ok res) :
    (∀ doc : Element,
      mtree_lookup_file commit.tree
        ["files", "share", "app-info", "xmls",
          app_id_from_ref refstring ++ ".xml.gz"] = .ok doc →
      rewrite_appstream_xml info refstring build doc = .ok doc →
      res.tree = commit.tree ∧ res.fileReplaced = false) ∧
    (res.setRef = none ↔ commit = res.newCommit) := by
  unfold rewrite_ref at h
  dsimp only at h
  cases hfa : rewrite_appstream_file (app_id_from_ref refstring) info build refstring
      commit.tree with
  | error e => rw [hfa] at h; cases h
  | ok tr =>
    obtain ⟨tree, replaced⟩ := tr
    rw [hfa] at h
    dsimp only at h
    have htr : ∀ doc : Element,
        mtree_lookup_file commit.tree
          ["files", "share", "app-info", "xmls",
            app_id_from_ref refstring ++ ".xml.gz"] = .ok doc →
        rewrite_appstream_xml info refstring build doc = .ok doc →
        tree = commit.tree ∧ replaced = false := by
      intro doc hlook hrw
      have hfa2 : rewrite_appstream_file (app_id_from_ref refstring) info build refstring
          commit.tree = .ok (commit.tree, false) := by
        unfold rewrite_appstream_file
        simp only [List.cons_append, List.nil_append]
        rw [hlook]
        dsimp only
        rw [hrw]
        dsimp only
        rw [if_pos rfl]
      have hfa3 := hfa2.symm.trans hfa
      injection hfa3 with hfa'
      exact ⟨(congrArg Prod.fst hfa').symm, (congrArg Prod.snd hfa').symm⟩
    by_cases hc : commit =
        { parent := commit.parent, subject := commit.subject, body := commit.body,
          time := commit.time, metadata := rewrite_metadata commit.metadata info,
          tree := tree }
    · rw [if_pos hc] at h
      injection h with h'
      subst h'
      exact ⟨fun doc h1 h2 => htr doc h1 h2, ⟨fun _ => hc, fun _ => rfl⟩⟩
    · rw [if_neg hc] at h
      injection h with h'
      subst h'
      exact ⟨fun doc h1 h2 => htr doc h1 h2,
        ⟨fun hx => absurd hx (Option.some_ne_none _), fun hx => absurd hx hc⟩⟩

/-- The C2 witness commit is already fully rewritten: empty metadata and a
stable appstream document, so the new commit equals the original and the ref
pointer is untouched. -/
def cexStableCommit : Commit := ⟨none, "s", "b", 0, [], cexTree⟩

/-- Witness for the amended C2 at a concrete commit: the rewrite leaves the
tree alone, writes no file, and does not touch the ref pointer. -/
theorem c2_no_op_detection_witness :
    ((⟨cexTree, false, cexStableCommit, none⟩ : RefRewrite).tree = cexStableCommit.tree ∧
     (⟨cexTree, false, cexStableCommit, none⟩ : RefRewrite).fileReplaced = false) ∧
    ((⟨cexTree, false, cexStableCommit, none⟩ : RefRewrite).setRef = none ↔
      cexStableCommit = (⟨cexTree, false, cexStableCommit, none⟩ : RefRewrite).newCommit) :=
  ⟨(c2_no_op_detection ⟨none, none, none⟩ none "app/org.flathub.Test/x86_64/stable"
        cexStableCommit ⟨cexTree, false, cexStableCommit, none⟩ (by decide)).1
      cexDoc (by decide) (by decide),
   (c2_no_op_detection ⟨none, none, none⟩ none "app/org.flathub.Test/x86_64/stable"
        cexStableCommit ⟨cexTree, false, cexStableCommit, none⟩ (by decide)).2⟩

end FlatManagerHooks
